import Mathlib

/-!
Verification of the request-handling and logging middleware chain of
`http-echo` (`handlers.go`) against its specification.

The embedding is shallow: Go strings become `List Char`, Go `int` becomes
`Int`, byte slices become `List Nat`, and the calls a downstream handler
makes on its `http.ResponseWriter` become a trace of `HandlerOp`s that is
folded over explicit writer states.
-/

namespace HttpEcho

/-- `httpHeaderAppName` constant from `handlers.go`. -/
def httpHeaderAppName : String := "X-App-Name"

/-- `httpHeaderAppVersion` constant from `handlers.go`. -/
def httpHeaderAppVersion : String := "X-App-Version"

/-- Modelled from the spec: the application-name identification value.  It is
supplied by the external `version` package (not part of the analysed source);
the spec only says it is a string constant fixed at build/process level, and
its concrete value is irrelevant to every claim. -/
def version.Name : String := "http-echo"

/-- Modelled from the spec: the application-version identification value,
likewise a fixed string constant from the external `version` package. -/
def version.Version : String := "1.0.0"

/-- The calls a downstream handler may make on its response writer:
`Header().Set`, `WriteHeader`, and `Write` (`net/http.HandlerFunc` surface
used by `handlers.go`).  Bytes are modelled as `Nat`s. -/
inductive HandlerOp where
  | setHeader (k v : String)
  | writeHeader (s : Int)
  | write (b : List Nat)
deriving DecidableEq, Repr

/-- State of `metaResponseWriter` from `handlers.go`: the captured `status`
and `length` fields (Go `int`, zero-initialised).  The `writer` field — the
wrapped real response channel — is modelled separately: its per-call result
is threaded through `metaResponseWriter.Write` as an explicit argument, and
its own state as a `BaseWriter`. -/
structure metaResponseWriter where
  status : Int
  length : Int
deriving DecidableEq, Repr

/-- The bookkeeping part of `metaResponseWriter.Write`:
`if w.status == 0 { w.status = http.StatusOK }; w.length = len(b)`. -/
def metaResponseWriter.writeState (w : metaResponseWriter) (b : List Nat) :
    metaResponseWriter :=
  { status := if w.status = 0 then 200 else w.status
    length := (b.length : Int) }

/-- `metaResponseWriter.Write` from `handlers.go`.  `res` is the result
`(count, error)` that the wrapped channel's `Write(b)` returns for this call
(the error is modelled as an optional message string); the method performs its
bookkeeping and then returns exactly that result:
`return w.writer.Write(b)`. -/
def metaResponseWriter.Write (w : metaResponseWriter) (b : List Nat)
    (res : Int × Option String) : metaResponseWriter × (Int × Option String) :=
  (w.writeState b, res)

/-- `metaResponseWriter.WriteHeader` from `handlers.go`: records the status
(the forwarding of the call to the wrapped channel is part of the
`BaseWriter` model below). -/
def metaResponseWriter.WriteHeader (w : metaResponseWriter) (s : Int) :
    metaResponseWriter :=
  { w with status := s }

/-- Effect of one downstream-handler call on the captured metadata.
`Header().Set` is a pass-through (`metaResponseWriter.Header` just returns the
wrapped channel's header map); the wrapped channel's reply to a `Write` does
not influence the captured state, so an arbitrary reply is threaded. -/
def mrwStep (w : metaResponseWriter) : HandlerOp → metaResponseWriter
  | .setHeader _ _ => w
  | .writeHeader s => w.WriteHeader s
  | .write b => (w.Write b ((b.length : Int), none)).1

/-- Captured metadata after a handler performed the calls in `ops`, starting
from the zero-value `metaResponseWriter` that `httpLog` allocates
(`var mrw metaResponseWriter`). -/
def mrwRun (ops : List HandlerOp) : metaResponseWriter :=
  ops.foldl mrwStep ⟨0, 0⟩

/-- The `status` value that the deferred block of `httpLog` reads
(`status := mrw.status`) once the handler has performed `ops`. -/
def loggedStatus (ops : List HandlerOp) : Int :=
  (mrwRun ops).status

/-- The `length` value that the deferred block of `httpLog` reads
(`length := mrw.length`). -/
def loggedLength (ops : List HandlerOp) : Int :=
  (mrwRun ops).length

/-! ### Invariant lemmas about the captured status -/

/-- A nonzero captured status stays nonzero as long as every later explicit
`WriteHeader` uses a nonzero code: a `Write` never zeroes the status. -/
theorem status_ne_zero_preserved (ops : List HandlerOp) :
    ∀ w : metaResponseWriter, w.status ≠ 0 →
      (∀ s, HandlerOp.writeHeader s ∈ ops → s ≠ 0) →
      (ops.foldl mrwStep w).status ≠ 0 := by
  induction ops with
  | nil => intro w hw _; simpa using hw
  | cons op rest ih =>
    intro w hw hall
    have hrest : ∀ s, HandlerOp.writeHeader s ∈ rest → s ≠ 0 := by
      intro s hs; exact hall s (List.mem_cons_of_mem _ hs)
    cases op with
    | setHeader k v => exact ih w hw hrest
    | writeHeader s =>
      have hs : s ≠ 0 := hall s (List.mem_cons_self _ _)
      exact ih _ hs hrest
    | write b =>
      have : (mrwStep w (.write b)).status ≠ 0 := by
        simp only [mrwStep, metaResponseWriter.Write,
          metaResponseWriter.writeState]
        split
        · decide
        · exact hw
      exact ih _ this hrest

/-- If no explicit `WriteHeader` ever occurs, a captured status of 200 is
preserved by the remaining calls. -/
theorem status_200_preserved (ops : List HandlerOp) :
    ∀ w : metaResponseWriter, w.status = 200 →
      (∀ s, HandlerOp.writeHeader s ∉ ops) →
      (ops.foldl mrwStep w).status = 200 := by
  induction ops with
  | nil => intro w hw _; simpa using hw
  | cons op rest ih =>
    intro w hw hnone
    have hrest : ∀ s, HandlerOp.writeHeader s ∉ rest := by
      intro s hs; exact hnone s (List.mem_cons_of_mem _ hs)
    cases op with
    | setHeader k v => exact ih w hw hrest
    | writeHeader s => exact absurd (List.mem_cons_self _ _) (hnone s)
    | write b =>
      have : (mrwStep w (.write b)).status = 200 := by
        simp [mrwStep, metaResponseWriter.Write,
          metaResponseWriter.writeState, hw]
      exact ih _ this hrest

/-- With no explicit `WriteHeader`, a nonzero captured status value is
preserved exactly (writes never change a nonzero status). -/
theorem status_value_preserved (ops : List HandlerOp) :
    ∀ w : metaResponseWriter, w.status ≠ 0 →
      (∀ s, HandlerOp.writeHeader s ∉ ops) →
      (ops.foldl mrwStep w).status = w.status := by
  induction ops with
  | nil => intro w _ _; simp
  | cons op rest ih =>
    intro w hw hnone
    have hrest : ∀ s, HandlerOp.writeHeader s ∉ rest := by
      intro s hs; exact hnone s (List.mem_cons_of_mem _ hs)
    cases op with
    | setHeader k v => exact ih w hw hrest
    | writeHeader s => exact absurd (List.mem_cons_self _ _) (hnone s)
    | write b =>
      have hstep : mrwStep w (.write b) =
          { status := w.status, length := (b.length : Int) } := by
        simp [mrwStep, metaResponseWriter.Write,
          metaResponseWriter.writeState, hw]
      rw [List.foldl_cons, hstep]
      exact ih _ hw hrest

/-- C6: a status explicitly set before any write is never overwritten by
subsequent writes.  (`c ≠ 0` because 0 is the "unset" sentinel: the real
wrapped `net/http` writer rejects `WriteHeader(0)` before any write could
follow.) -/
theorem c6_status_preserved (c : Int) (hc : c ≠ 0) (bs : List (List Nat)) :
    (mrwRun (HandlerOp.writeHeader c :: bs.map HandlerOp.write)).status = c := by
  have hnone : ∀ s, HandlerOp.writeHeader s ∉ bs.map HandlerOp.write := by
    intro s hs
    rcases List.mem_map.mp hs with ⟨b, _, hb⟩
    exact HandlerOp.noConfusion hb
  have h1 : mrwStep ⟨0, 0⟩ (HandlerOp.writeHeader c) =
      ({ status := c, length := 0 } : metaResponseWriter) := by
    simp [mrwStep, metaResponseWriter.WriteHeader]
  calc (mrwRun (HandlerOp.writeHeader c :: bs.map HandlerOp.write)).status
      = ((bs.map HandlerOp.write).foldl mrwStep
          { status := c, length := 0 }).status := by
        simp [mrwRun, h1]
    _ = c := status_value_preserved _ _ hc hnone

/-- Witness for C6 at `c = 404` with two subsequent writes. -/
theorem c6_witness :
    (404 : Int) ≠ 0 ∧
      (mrwRun (HandlerOp.writeHeader 404 ::
        ([[1, 2, 3], [4]] : List (List Nat)).map HandlerOp.write)).status
        = 404 :=
  ⟨by decide, c6_status_preserved 404 (by decide) [[1, 2, 3], [4]]⟩

/-- Folding a sequence of writes from a state with status 200 keeps status
200, and leaves `length` equal to the last write's size (or unchanged when
there is no write). -/
theorem fold_writes (bs : List (List Nat)) :
    ∀ w : metaResponseWriter, w.status = 200 →
      ((bs.map HandlerOp.write).foldl mrwStep w).status = 200 ∧
      ((bs.map HandlerOp.write).foldl mrwStep w).length =
        (bs.getLast?.map (fun b => (b.length : Int))).getD w.length := by
  induction bs with
  | nil => intro w hw; simpa using hw
  | cons b rest ih =>
    intro w hw
    have h1 : mrwStep w (.write b) =
        ({ status := 200, length := (b.length : Int) } :
          metaResponseWriter) := by
      simp [mrwStep, metaResponseWriter.Write,
        metaResponseWriter.writeState, hw]
    have h2 := ih { status := 200, length := (b.length : Int) } rfl
    cases rest with
    | nil => simp [h1]
    | cons b2 rest2 =>
      rw [List.map_cons, List.foldl_cons, h1]
      simpa [List.getLast?_cons_cons] using h2

/-- C7: for a nonempty sequence of writes with no explicit status, the
captured status is 200 and the captured length is the byte length of the
last write only (not cumulative). -/
theorem c7_last_write_length (bs : List (List Nat)) (hbs : bs ≠ []) :
    (mrwRun (bs.map HandlerOp.write)).status = 200 ∧
      (mrwRun (bs.map HandlerOp.write)).length =
        ((bs.getLast hbs).length : Int) := by
  have hsome : bs.getLast? = some (bs.getLast hbs) :=
    List.getLast?_eq_getLast bs hbs
  obtain ⟨b, rest, rfl⟩ := List.exists_cons_of_ne_nil hbs
  have h1 : mrwStep ⟨0, 0⟩ (.write b) =
      ({ status := 200, length := (b.length : Int) } :
        metaResponseWriter) := by
    simp [mrwStep, metaResponseWriter.Write, metaResponseWriter.writeState]
  have h2 := fold_writes rest { status := 200, length := (b.length : Int) }
    rfl
  have hrun : mrwRun ((b :: rest).map HandlerOp.write) =
      (rest.map HandlerOp.write).foldl mrwStep
        { status := 200, length := (b.length : Int) } := by
    simp [mrwRun, h1]
  refine ⟨by rw [hrun]; exact h2.1, ?_⟩
  rw [hrun, h2.2]
  cases rest with
  | nil =>
    have hb : (b :: []).getLast hbs = b := rfl
    simp [hb]
  | cons b2 rest2 =>
    have h3 : (b2 :: rest2).getLast? = some ((b :: b2 :: rest2).getLast hbs) :=
      by rw [← List.getLast?_cons_cons]; exact hsome
    simp [h3]

/-- Witness for C7: writes of 10 bytes then 3 bytes give status 200 and
length 3. -/
theorem c7_witness :
    ([List.replicate 10 0, List.replicate 3 0] : List (List Nat)) ≠ [] ∧
      (mrwRun ([List.replicate 10 0,
        List.replicate 3 0].map HandlerOp.write)).status = 200 ∧
      (mrwRun ([List.replicate 10 0,
        List.replicate 3 0].map HandlerOp.write)).length = 3 := by
  refine ⟨by decide, ?_⟩
  have h := c7_last_write_length [List.replicate 10 0, List.replicate 3 0]
    (by decide)
  simpa using h

/-- C9: `metaResponseWriter.Write` returns exactly the wrapped channel's
result, unchanged — errors are propagated, never swallowed or replaced — and
its only other effect is the bookkeeping on `status` and `length`. -/
theorem c9_write_result_propagated (w : metaResponseWriter) (b : List Nat)
    (res : Int × Option String) :
    (w.Write b res).2 = res ∧
      (w.Write b res).1.status = (if w.status = 0 then 200 else w.status) ∧
      (w.Write b res).1.length = (b.length : Int) := by
  refine ⟨rfl, ?_, rfl⟩
  simp [metaResponseWriter.Write, metaResponseWriter.writeState]

/-- C10: the captured length always equals the requested write size `len(b)`,
whatever count or error the wrapped channel reports; in particular, on a
short write the captured (logged) length strictly exceeds the count of bytes
the wrapped channel reported as delivered. -/
theorem c10_length_set_regardless (w : metaResponseWriter) (b : List Nat)
    (n : Int) (err : Option String) :
    (w.Write b (n, err)).1.length = (b.length : Int) ∧
      (n < (b.length : Int) → n < (w.Write b (n, err)).1.length) := by
  refine ⟨rfl, ?_⟩
  intro h
  simpa [metaResponseWriter.Write, metaResponseWriter.writeState] using h

/-- Witness for C10: a 5-byte write where the channel reports a short write of
2 bytes with an error still captures length 5, exceeding the 2 delivered. -/
theorem c10_witness :
    ((⟨0, 0⟩ : metaResponseWriter).Write [9, 9, 9, 9, 9]
        (2, some "broken pipe")).1.length = 5 ∧
      (2 : Int) < 5 ∧
      (2 : Int) <
        ((⟨0, 0⟩ : metaResponseWriter).Write [9, 9, 9, 9, 9]
          (2, some "broken pipe")).1.length := by
  have h := c10_length_set_regardless ⟨0, 0⟩ [9, 9, 9, 9, 9] 2
    (some "broken pipe")
  exact ⟨h.1, by decide, h.2 (by decide)⟩

/-- From an unset status (0), a trace with no explicit `WriteHeader` but at
least one `Write` ends with captured status 200. -/
theorem status_200_of_write (ops : List HandlerOp) :
    ∀ w : metaResponseWriter, w.status = 0 →
      (∀ s, HandlerOp.writeHeader s ∉ ops) →
      (∃ b, HandlerOp.write b ∈ ops) →
      (ops.foldl mrwStep w).status = 200 := by
  induction ops with
  | nil => intro w _ _ hex; exact absurd hex.choose_spec (List.not_mem_nil _)
  | cons op rest ih =>
    intro w hw hnone hex
    have hrest : ∀ s, HandlerOp.writeHeader s ∉ rest := by
      intro s hs; exact hnone s (List.mem_cons_of_mem _ hs)
    cases op with
    | setHeader k v =>
      obtain ⟨b, hb⟩ := hex
      have hb' : HandlerOp.write b ∈ rest := by
        rcases List.mem_cons.mp hb with h | h
        · exact absurd h (by simp)
        · exact h
      exact ih w hw hrest ⟨b, hb'⟩
    | writeHeader s => exact absurd (List.mem_cons_self _ _) (hnone s)
    | write b =>
      have hstep : (mrwStep w (.write b)).status = 200 := by
        simp [mrwStep, metaResponseWriter.Write,
          metaResponseWriter.writeState, hw]
      exact status_200_preserved rest _ hstep hrest

/-- A trace containing at least one `Write`, all of whose explicit
`WriteHeader` calls use nonzero codes, ends with a nonzero captured status
from any starting state. -/
theorem status_ne_zero_of_write (ops : List HandlerOp) :
    ∀ w : metaResponseWriter,
      (∃ b, HandlerOp.write b ∈ ops) →
      (∀ s, HandlerOp.writeHeader s ∈ ops → s ≠ 0) →
      (ops.foldl mrwStep w).status ≠ 0 := by
  induction ops with
  | nil => intro w hex _; exact absurd hex.choose_spec (List.not_mem_nil _)
  | cons op rest ih =>
    intro w hex hall
    have hrest : ∀ s, HandlerOp.writeHeader s ∈ rest → s ≠ 0 := by
      intro s hs; exact hall s (List.mem_cons_of_mem _ hs)
    cases op with
    | setHeader k v =>
      obtain ⟨b, hb⟩ := hex
      have hb' : HandlerOp.write b ∈ rest := by
        rcases List.mem_cons.mp hb with h | h
        · exact absurd h (by simp)
        · exact h
      exact ih w ⟨b, hb'⟩ hrest
    | writeHeader s =>
      have hs : s ≠ 0 := hall s (List.mem_cons_self _ _)
      exact status_ne_zero_preserved rest _ hs hrest
    | write b =>
      have hstep : (mrwStep w (.write b)).status ≠ 0 := by
        simp only [mrwStep, metaResponseWriter.Write,
          metaResponseWriter.writeState]
        split
        · decide
        · assumption
      exact status_ne_zero_preserved rest _ hstep hrest

/-- C1 counterexample: a handler execution that neither sets a status nor
writes any body bytes leaves the captured status at 0, so the status the
deferred log block reads is 0 — the claimed "nonzero for every handler
execution" fails. -/
theorem c1_counterexample : loggedStatus [] = 0 := rfl

/-- C1 (amended): if no explicit `WriteHeader` occurred, the first body write
sets the status to 200, so the logged status is nonzero for every execution
that performs at least one body write (or sets a nonzero status); an
execution that neither sets a status nor writes reads status 0. -/
theorem c1_amended_status_nonzero (ops : List HandlerOp) :
    ((∀ s, HandlerOp.writeHeader s ∉ ops) →
      (∃ b, HandlerOp.write b ∈ ops) → loggedStatus ops = 200) ∧
    ((∃ b, HandlerOp.write b ∈ ops) →
      (∀ s, HandlerOp.writeHeader s ∈ ops → s ≠ 0) →
      loggedStatus ops ≠ 0) :=
  ⟨fun hnone hex => status_200_of_write ops ⟨0, 0⟩ rfl hnone hex,
   fun hex hall => status_ne_zero_of_write ops ⟨0, 0⟩ hex hall⟩

/-- Witness for C1 (amended) at the single-write trace. -/
theorem c1_witness :
    loggedStatus [HandlerOp.write [0, 1, 2]] = 200 ∧
      loggedStatus [HandlerOp.write [0, 1, 2]] ≠ 0 := by
  have h := c1_amended_status_nonzero [HandlerOp.write [0, 1, 2]]
  refine ⟨h.1 ?_ ⟨[0, 1, 2], by simp⟩, h.2 ⟨[0, 1, 2], by simp⟩ ?_⟩
  · intro s hs; simp at hs
  · intro s hs; simp at hs

/-- The trace of response-writer calls made by the handler that
`withAppHeaders c h` returns, when the downstream handler `h` makes the calls
in `ops`: the two identification headers are set, the fixed status `c` is
written, then `h` runs with the same writer and request. -/
def withAppHeadersOps (c : Int) (ops : List HandlerOp) : List HandlerOp :=
  HandlerOp.setHeader httpHeaderAppName version.Name ::
    HandlerOp.setHeader httpHeaderAppVersion version.Version ::
      HandlerOp.writeHeader c :: ops

/-- Instrumentation for C8: `true` iff, running `ops` from state `w`, some
`Write` call finds `status = 0` and so takes the
`if w.status == 0 { w.status = http.StatusOK }` branch of
`metaResponseWriter.Write`. -/
def defaultBranchHits (w : metaResponseWriter) : List HandlerOp → Bool
  | [] => false
  | op :: rest =>
    (match op with
      | .write _ => decide (w.status = 0)
      | _ => false) ||
    defaultBranchHits (mrwStep w op) rest

/-- From a nonzero status, with all explicit `WriteHeader` codes nonzero, the
default-to-200 branch is never taken. -/
theorem no_hits_of_ne_zero (ops : List HandlerOp) :
    ∀ w : metaResponseWriter, w.status ≠ 0 →
      (∀ s, HandlerOp.writeHeader s ∈ ops → s ≠ 0) →
      defaultBranchHits w ops = false := by
  induction ops with
  | nil => intro w _ _; rfl
  | cons op rest ih =>
    intro w hw hall
    have hrest : ∀ s, HandlerOp.writeHeader s ∈ rest → s ≠ 0 := by
      intro s hs; exact hall s (List.mem_cons_of_mem _ hs)
    cases op with
    | setHeader k v =>
      simpa [defaultBranchHits, mrwStep] using ih w hw hrest
    | writeHeader s =>
      have hs : s ≠ 0 := hall s (List.mem_cons_self _ _)
      have : (mrwStep w (.writeHeader s)).status ≠ 0 := by
        simpa [mrwStep, metaResponseWriter.WriteHeader] using hs
      simpa [defaultBranchHits] using ih _ this hrest
    | write b =>
      have hkeep : (mrwStep w (.write b)).status ≠ 0 := by
        simp only [mrwStep, metaResponseWriter.Write,
          metaResponseWriter.writeState]
        split
        · decide
        · exact hw
      simp [defaultBranchHits, hw, ih _ hkeep hrest]

/-- C8: in the composed chain (`httpLog` wrapping `withAppHeaders`), the
"default to 200 on first write" branch of `metaResponseWriter.Write` is
unreachable: `WriteHeader c` runs before any downstream call, so the status
is already nonzero at every `Write`.  (`c ≠ 0` and nonzero downstream codes
because 0 is the unset sentinel and is rejected by the real wrapped writer.) -/
theorem c8_default_branch_unreachable (c : Int) (ops : List HandlerOp)
    (hc : c ≠ 0) (hops : ∀ s, HandlerOp.writeHeader s ∈ ops → s ≠ 0) :
    defaultBranchHits ⟨0, 0⟩ (withAppHeadersOps c ops) = false := by
  have h3 : (mrwStep (mrwStep (mrwStep ⟨0, 0⟩
      (.setHeader httpHeaderAppName version.Name))
      (.setHeader httpHeaderAppVersion version.Version))
      (.writeHeader c)).status ≠ 0 := by
    simpa [mrwStep, metaResponseWriter.WriteHeader] using hc
  simpa [withAppHeadersOps, defaultBranchHits, mrwStep] using
    no_hits_of_ne_zero ops _ h3 hops

/-- Witness for C8 with the fixed status 200 and a single downstream write. -/
theorem c8_witness :
    (200 : Int) ≠ 0 ∧
      defaultBranchHits ⟨0, 0⟩
        (withAppHeadersOps 200 [HandlerOp.write [1, 2, 3]]) = false :=
  ⟨by decide,
   c8_default_branch_unreachable 200 [HandlerOp.write [1, 2, 3]] (by decide)
     (by intro s hs; simp at hs)⟩

/-! ### The forwarded-for field of `httpLog` -/

/-- Go `unicode.IsSpace` on the code points relevant to header values (the
ASCII whitespace characters plus U+0085 and U+00A0; other Unicode space
code points cannot occur in HTTP header values). -/
def isGoSpace (c : Char) : Bool :=
  c = ' ' || c = '\t' || c = '\n' || c = '\x0b' || c = '\x0c' || c = '\r' ||
    c = '\u0085' || c = '\u00A0'

/-- Go `strings.TrimSpace`: drop leading and trailing whitespace. -/
def goTrimSpace (s : List Char) : List Char :=
  ((s.dropWhile isGoSpace).reverse.dropWhile isGoSpace).reverse

/-- The forwarded-for computation of `httpLog` (Go strings as `List Char`).
`hdr` is the result of `r.Header.Get("X-Forwarded-For")`, which is the empty
string when the header is absent.  Source:
`if forwardedFor != "" { if idx := strings.Index(forwardedFor, ","); idx != -1
{ forwardedFor = strings.TrimSpace(forwardedFor[:idx]) } } else
{ forwardedFor = "-" }`. -/
def forwardedForField (hdr : List Char) : List Char :=
  if hdr = [] then ['-']
  else if ',' ∈ hdr then goTrimSpace (hdr.takeWhile (fun c => c != ','))
  else hdr

/-- `takeWhile` of a list split at the first element failing the predicate
returns exactly the prefix before it. -/
theorem takeWhile_append_cons (p : Char → Bool) (x : Char)
    (hx : p x = false) :
    ∀ pre post : List Char, (∀ a ∈ pre, p a = true) →
      (pre ++ x :: post).takeWhile p = pre := by
  intro pre
  induction pre with
  | nil => intro post _; simp [List.takeWhile_cons, hx]
  | cons a pre2 ih =>
    intro post hall
    have ha : p a = true := hall a (List.mem_cons_self _ _)
    have hrest : ∀ b ∈ pre2, p b = true := by
      intro b hb; exact hall b (List.mem_cons_of_mem _ hb)
    simp [List.takeWhile_cons, ha, ih post hrest]

/-- C2 counterexample: for a sole forwarded-for entry with surrounding
whitespace and no comma, the code uses the value verbatim — it does not trim
it, contrary to the claim. -/
theorem c2_counterexample :
    forwardedForField " 1.2.3.4".toList = " 1.2.3.4".toList ∧
      forwardedForField " 1.2.3.4".toList ≠
        goTrimSpace " 1.2.3.4".toList ∧
      forwardedForField " 1.2.3.4".toList ≠ "1.2.3.4".toList := by
  refine ⟨by decide, by decide, by decide⟩

/-- C2 (amended): with forwarding enabled the logged forwarded-address field
is `-` when the header is absent/empty; when the header value contains a
comma it is the entry before the first comma, trimmed of surrounding
whitespace; a nonempty comma-free value is used verbatim (not trimmed).  In
particular `X-Forwarded-For: 1.2.3.4, 5.6.7.8` yields exactly `1.2.3.4`. -/
theorem c2_forwarded_for_amended (hdr pre post : List Char) :
    (hdr = [] → forwardedForField hdr = ['-']) ∧
    (hdr = pre ++ ',' :: post → ',' ∉ pre →
      forwardedForField hdr = goTrimSpace pre) ∧
    (hdr ≠ [] → ',' ∉ hdr → forwardedForField hdr = hdr) := by
  refine ⟨?_, ?_, ?_⟩
  · intro h; simp [forwardedForField, h]
  · intro h hpre
    subst h
    have hne : pre ++ ',' :: post ≠ [] := by simp
    have hmem : ',' ∈ pre ++ ',' :: post := by simp
    have htake : (pre ++ ',' :: post).takeWhile (fun c => c != ',') = pre := by
      refine takeWhile_append_cons _ ',' (by simp) pre post ?_
      intro a ha
      have hne2 : a ≠ ',' := fun h => hpre (h ▸ ha)
      simpa using hne2
    simp [forwardedForField, hne, hmem, htake]
  · intro hne hmem
    simp [forwardedForField, hne, hmem]

/-- Witness for C2 (amended): the spec's concrete example. -/
theorem c2_witness :
    forwardedForField "1.2.3.4, 5.6.7.8".toList = "1.2.3.4".toList := by
  have h := (c2_forwarded_for_amended "1.2.3.4, 5.6.7.8".toList
    "1.2.3.4".toList " 5.6.7.8".toList).2.1 (by decide) (by decide)
  rw [h]; decide

/-- Every character of the forwarded-for field is either the placeholder
`-` or a character of the header value itself. -/
theorem mem_forwardedForField (hdr : List Char) (c : Char)
    (hc : c ∈ forwardedForField hdr) : c = '-' ∨ c ∈ hdr := by
  unfold forwardedForField at hc
  split at hc
  · left; simpa using hc
  · split at hc
    · right
      have h1 : c ∈ (hdr.takeWhile (fun c => c != ',')).reverse.dropWhile
          isGoSpace ∨ c ∈ hdr.takeWhile (fun c => c != ',') := by
        unfold goTrimSpace at hc
        rw [List.mem_reverse] at hc
        right
        have h2 := (List.dropWhile_sublist
          (l := (hdr.takeWhile (fun c => c != ',')).dropWhile isGoSpace
            |>.reverse) (p := isGoSpace)).mem hc
        rw [List.mem_reverse] at h2
        exact (List.dropWhile_sublist (p := isGoSpace)).mem h2
      rcases h1 with h | h
      · have := (List.dropWhile_sublist (p := isGoSpace)).mem h
        rw [List.mem_reverse] at this
        exact (List.takeWhile_sublist _).mem this
      · exact (List.takeWhile_sublist _).mem h
    · right; exact hc

/-! ### The log-line format of `httpLog` -/

/-- An argument passed to `fmt.Fprintf`: a Go string (`%s`), an int (`%d`),
or a value rendered with `%v` whose textual rendering is taken as given (the
`time.Time` and `time.Duration` arguments, whose formatting is done by the
external `time` package). -/
inductive FmtArg where
  | s (x : List Char)
  | d (x : Int)
  | v (x : List Char)

/-- `fmt.Fprintf`-style interpretation of a format string over the verbs the
source uses (`%v`, `%s`, `%d`); every other character is copied literally. -/
def renderFmt : List Char → List FmtArg → List Char
  | [], _ => []
  | '%' :: 'v' :: rest, FmtArg.v x :: args => x ++ renderFmt rest args
  | '%' :: 's' :: rest, FmtArg.s x :: args => x ++ renderFmt rest args
  | '%' :: 'd' :: rest, FmtArg.d x :: args =>
      (toString x).toList ++ renderFmt rest args
  | c :: rest, args => c :: renderFmt rest args

/-- `httpLogFormat` constant from `handlers.go`. -/
def httpLogFormat : List Char :=
  "%v %s %s \"%s %s %s\" %d %d \"%s\" %v\n".toList

/-- `httpLogFormatWithForward` constant from `handlers.go`. -/
def httpLogFormatWithForward : List Char :=
  "%v %s %s %s \"%s %s %s\" %d %d \"%s\" %v\n".toList

/-- The request-derived values the deferred block of `httpLog` reads:
`end.Format(httpLogDateFormat)`, `r.Host`, `r.RemoteAddr`, `r.Method`,
`r.URL.Path`, `r.Proto`, `r.UserAgent()`, the rendering of `dur`, and the
result of `r.Header.Get("X-Forwarded-For")` (empty when the header is
absent).  The two time-derived strings are taken as given: wall-clock
reading is external to the modelled code. -/
structure LogInputs where
  endTs : List Char
  host : List Char
  remoteAddr : List Char
  method : List Char
  path : List Char
  proto : List Char
  userAgent : List Char
  dur : List Char
  forwardedFor : List Char

/-- The `Fprintf` arguments of the no-forwarding branch, in source order. -/
def logArgs (req : LogInputs) (status len : Int) : List FmtArg :=
  [FmtArg.v req.endTs, FmtArg.s req.host, FmtArg.s req.remoteAddr,
    FmtArg.s req.method, FmtArg.s req.path, FmtArg.s req.proto,
    FmtArg.d status, FmtArg.d len, FmtArg.s req.userAgent, FmtArg.v req.dur]

/-- The `Fprintf` arguments of the forwarding branch, in source order: the
forwarded-for field comes right after `r.RemoteAddr`. -/
def logArgsWithForward (req : LogInputs) (fwd : List Char)
    (status len : Int) : List FmtArg :=
  [FmtArg.v req.endTs, FmtArg.s req.host, FmtArg.s req.remoteAddr,
    FmtArg.s fwd, FmtArg.s req.method, FmtArg.s req.path, FmtArg.s req.proto,
    FmtArg.d status, FmtArg.d len, FmtArg.s req.userAgent, FmtArg.v req.dur]

/-- The single log line the deferred block of `httpLog` writes, given the
forwarding-mode flag (`os.Getenv(httpLogEnvForwardedFor) != ""`), the
request-derived strings, and the captured status and length. -/
def emitLine (fwdEnabled : Bool) (req : LogInputs) (status len : Int) :
    List Char :=
  if fwdEnabled then
    renderFmt httpLogFormatWithForward
      (logArgsWithForward req (forwardedForField req.forwardedFor) status len)
  else
    renderFmt httpLogFormat (logArgs req status len)

/-- All lines written to the output sink by one execution of the handler
`httpLog(out, h)` returns, when the downstream handler performs the calls in
`ops`: the deferred block runs once and writes exactly one formatted line. -/
def httpLogRun (fwdEnabled : Bool) (req : LogInputs)
    (ops : List HandlerOp) : List (List Char) :=
  [emitLine fwdEnabled req (loggedStatus ops) (loggedLength ops)]

/-- One execution of the handler `httpLog` returns, together with how the
downstream call `h(&mrw, r)` terminated: `panicked = false` for a normal
return, `panicked = true` when `h` panicked after performing the calls in
`ops`.  Per the Go language specification, deferred functions run when the
surrounding function returns normally *and* when it panics while unwinding,
so the deferred log-writing closure executes in both cases; the second
component records that the panic (if any) then keeps propagating to the
server runtime. -/
def httpLogRunTerm (fwdEnabled : Bool) (req : LogInputs)
    (ops : List HandlerOp) (panicked : Bool) : List (List Char) × Bool :=
  (httpLogRun fwdEnabled req ops, panicked)

/-- A concrete request (the spec's example request of §8). -/
def sampleReq : LogInputs where
  endTs := "2025/01/01 00:00:00".toList
  host := "example.com".toList
  remoteAddr := "10.0.0.1:4321".toList
  method := "GET".toList
  path := "/".toList
  proto := "HTTP/1.1".toList
  userAgent := "test-agent".toList
  dur := "1.234ms".toList
  forwardedFor := "1.2.3.4, 5.6.7.8".toList

/-- C3 counterexample: an execution whose downstream handler panics
(`panicked = true`) still emits exactly one log line — the deferred block is
not bypassed — refuting "no log line is emitted for that request". -/
theorem c3_counterexample :
    (httpLogRunTerm false sampleReq [] true).1.length = 1 ∧
      (httpLogRunTerm false sampleReq [] true).2 = true :=
  ⟨rfl, rfl⟩

/-- C3 (amended): the access-log middleware emits its log line on normal
return of the downstream handler *and* on a panic: Go runs deferred calls
while panicking, so exactly one line is emitted either way, after which the
panic keeps propagating. -/
theorem c3_log_on_panic_amended (fwdEnabled : Bool) (req : LogInputs)
    (ops : List HandlerOp) (panicked : Bool) :
    (httpLogRunTerm fwdEnabled req ops panicked).1.length = 1 ∧
      (httpLogRunTerm fwdEnabled req ops panicked).2 = panicked :=
  ⟨rfl, rfl⟩

/-- `httpLogFormat` as an explicit character list. -/
theorem httpLogFormat_chars :
    httpLogFormat =
      ['%', 'v', ' ', '%', 's', ' ', '%', 's', ' ', '"', '%', 's', ' ', '%',
        's', ' ', '%', 's', '"', ' ', '%', 'd', ' ', '%', 'd', ' ', '"', '%',
        's', '"', ' ', '%', 'v', '\n'] := rfl

/-- `httpLogFormatWithForward` as an explicit character list. -/
theorem httpLogFormatWithForward_chars :
    httpLogFormatWithForward =
      ['%', 'v', ' ', '%', 's', ' ', '%', 's', ' ', '%', 's', ' ', '"', '%',
        's', ' ', '%', 's', ' ', '%', 's', '"', ' ', '%', 'd', ' ', '%', 'd',
        ' ', '"', '%', 's', '"', ' ', '%', 'v', '\n'] := rfl

/-- The no-forwarding log line, written out: every field in source order,
separated by single spaces, the request line and user agent quoted, ending in
a newline. -/
theorem emitLine_false_eq (req : LogInputs) (status len : Int) :
    emitLine false req status len =
      req.endTs ++ ' ' :: req.host ++ ' ' :: req.remoteAddr ++
        ' ' :: '"' :: req.method ++ ' ' :: req.path ++ ' ' :: req.proto ++
        '"' :: ' ' :: (toString status).toList ++
        ' ' :: (toString len).toList ++
        ' ' :: '"' :: req.userAgent ++ '"' :: ' ' :: req.dur ++ ['\n'] := by
  simp [emitLine, httpLogFormat_chars, logArgs, renderFmt]

/-- The forwarding log line, written out: identical to the no-forwarding
line except that the forwarded-address field is inserted immediately after
the remote address. -/
theorem emitLine_true_eq (req : LogInputs) (status len : Int) :
    emitLine true req status len =
      req.endTs ++ ' ' :: req.host ++ ' ' :: req.remoteAddr ++
        ' ' :: forwardedForField req.forwardedFor ++
        ' ' :: '"' :: req.method ++ ' ' :: req.path ++ ' ' :: req.proto ++
        '"' :: ' ' :: (toString status).toList ++
        ' ' :: (toString len).toList ++
        ' ' :: '"' :: req.userAgent ++ '"' :: ' ' :: req.dur ++ ['\n'] := by
  simp [emitLine, httpLogFormatWithForward_chars, logArgsWithForward,
    renderFmt]

/-- C4: per completed request the middleware writes exactly one formatted
line; without forwarding its fields are, in order: end timestamp, host,
remote address, quoted "method path protocol", status, length, quoted
user-agent, duration; with forwarding the forwarded-address field is
inserted immediately after the remote address; and when no field rendering
contains a newline the line contains exactly one newline (its terminator). -/
theorem c4_log_line_format (fwdEnabled : Bool) (req : LogInputs)
    (ops : List HandlerOp) (status len : Int)
    (hn : '\n' ∉ req.endTs ∧ '\n' ∉ req.host ∧ '\n' ∉ req.remoteAddr ∧
      '\n' ∉ req.method ∧ '\n' ∉ req.path ∧ '\n' ∉ req.proto ∧
      '\n' ∉ req.userAgent ∧ '\n' ∉ req.dur ∧
      '\n' ∉ (toString status).toList ∧ '\n' ∉ (toString len).toList ∧
      '\n' ∉ req.forwardedFor) :
    (httpLogRun fwdEnabled req ops).length = 1 ∧
    emitLine false req status len =
      req.endTs ++ ' ' :: req.host ++ ' ' :: req.remoteAddr ++
        ' ' :: '"' :: req.method ++ ' ' :: req.path ++ ' ' :: req.proto ++
        '"' :: ' ' :: (toString status).toList ++
        ' ' :: (toString len).toList ++
        ' ' :: '"' :: req.userAgent ++ '"' :: ' ' :: req.dur ++ ['\n'] ∧
    emitLine true req status len =
      req.endTs ++ ' ' :: req.host ++ ' ' :: req.remoteAddr ++
        ' ' :: forwardedForField req.forwardedFor ++
        ' ' :: '"' :: req.method ++ ' ' :: req.path ++ ' ' :: req.proto ++
        '"' :: ' ' :: (toString status).toList ++
        ' ' :: (toString len).toList ++
        ' ' :: '"' :: req.userAgent ++ '"' :: ' ' :: req.dur ++ ['\n'] ∧
    (emitLine fwdEnabled req status len).count '\n' = 1 := by
  obtain ⟨h1, h2, h3, h4, h5, h6, h7, h8, h9, h10, h11⟩ := hn
  have hc : ∀ xs : List Char, '\n' ∉ xs → xs.count '\n' = 0 := by
    intro xs h; exact List.count_eq_zero.mpr h
  have hfwd : (forwardedForField req.forwardedFor).count '\n' = 0 := by
    refine List.count_eq_zero.mpr ?_
    intro hmem
    rcases mem_forwardedForField _ _ hmem with h | h
    · exact absurd h (by decide)
    · exact h11 h
  have h9d : List.count '\n' (toString status).data = 0 := hc _ h9
  have h10d : List.count '\n' (toString len).data = 0 := hc _ h10
  refine ⟨rfl, emitLine_false_eq req status len,
    emitLine_true_eq req status len, ?_⟩
  cases fwdEnabled with
  | false =>
    rw [emitLine_false_eq]
    simp [List.count_append, List.count_cons, hc _ h1, hc _ h2, hc _ h3,
      hc _ h4, hc _ h5, hc _ h6, hc _ h7, hc _ h8, h9d, h10d]
  | true =>
    rw [emitLine_true_eq]
    simp [List.count_append, List.count_cons, hc _ h1, hc _ h2, hc _ h3,
      hc _ h4, hc _ h5, hc _ h6, hc _ h7, hc _ h8, h9d, h10d, hfwd]

/-- Witness for C4 on the spec's example request, status 200, length 5. -/
theorem c4_witness :
    (httpLogRun false sampleReq []).length = 1 ∧
      (emitLine false sampleReq 200 5).count '\n' = 1 ∧
      (emitLine true sampleReq 200 5).count '\n' = 1 := by
  have hf := c4_log_line_format false sampleReq [] 200 5 (by decide)
  have ht := c4_log_line_format true sampleReq [] 200 5 (by decide)
  exact ⟨hf.1, hf.2.2.2, ht.2.2.2⟩

/-! ### The real response channel (wire semantics) and `withAppHeaders` -/

/-- `net/http` `Header.Set`: replace any existing values for the key. -/
def headerSet (hs : List (String × String)) (k v : String) :
    List (String × String) :=
  (k, v) :: hs.filter (fun p => p.1 != k)

/-- Header lookup (first match; `headerSet` keeps at most one entry per
key). -/
def headerGet (hs : List (String × String)) (k : String) : Option String :=
  (hs.find? (fun p => p.1 == k)).map Prod.snd

/-- The real outbound response channel, with `net/http` wire semantics:
`headers` is the live header map; `sent` is `some (status, snapshot)` once
the status line and headers have gone out — the first `WriteHeader` wins,
later ones are ignored, header-map edits after sending do not change the
wire, and a body `Write` before any `WriteHeader` implicitly sends status
200; `body` collects the body chunks. -/
structure BaseWriter where
  headers : List (String × String)
  sent : Option (Int × List (String × String))
  body : List (List Nat)

/-- The fresh response channel at the start of a request. -/
def initBase : BaseWriter := ⟨[], none, []⟩

/-- Effect of one handler call on the real response channel. -/
def baseStep (w : BaseWriter) : HandlerOp → BaseWriter
  | .setHeader k v => { w with headers := headerSet w.headers k v }
  | .writeHeader s =>
    match w.sent with
    | some _ => w
    | none => { w with sent := some (s, w.headers) }
  | .write b =>
    match w.sent with
    | some _ => { w with body := w.body ++ [b] }
    | none => { w with sent := some (200, w.headers), body := w.body ++ [b] }

/-- Run a trace of handler calls on the real response channel. -/
def runBase (ops : List HandlerOp) (w : BaseWriter) : BaseWriter :=
  ops.foldl baseStep w

/-- The status actually sent to the client, if any. -/
def wireStatus (w : BaseWriter) : Option Int :=
  w.sent.map Prod.fst

/-- The value of header `k` as actually sent to the client, if headers have
been sent. -/
def wireHeader (w : BaseWriter) (k : String) : Option String :=
  match w.sent with
  | none => none
  | some p => headerGet p.2 k

/-- Once the status line and headers are on the wire, no later handler call
changes them. -/
theorem sent_preserved (ops : List HandlerOp) :
    ∀ (w : BaseWriter) (x : Int × List (String × String)),
      w.sent = some x → (runBase ops w).sent = some x := by
  induction ops with
  | nil => intro w x hw; simpa [runBase] using hw
  | cons op rest ih =>
    intro w x hw
    have hstep : (baseStep w op).sent = some x := by
      cases op with
      | setHeader k v => simpa [baseStep] using hw
      | writeHeader s => simp [baseStep, hw]
      | write b => simp [baseStep, hw]
    exact ih (baseStep w op) x hstep

/-- C5: the handler produced by `withAppHeaders c h` sets `X-App-Name` and
`X-App-Version` to the configured constants and writes the fixed status `c`
before invoking the downstream handler, so whatever calls the downstream
handler makes, the response on the wire carries status `c` and both headers
with those values. -/
theorem c5_app_headers (c : Int) (ops : List HandlerOp) :
    wireStatus (runBase (withAppHeadersOps c ops) initBase) = some c ∧
    wireHeader (runBase (withAppHeadersOps c ops) initBase)
      httpHeaderAppName = some version.Name ∧
    wireHeader (runBase (withAppHeadersOps c ops) initBase)
      httpHeaderAppVersion = some version.Version := by
  have hpre : runBase (withAppHeadersOps c ops) initBase =
      runBase ops
        { headers := headerSet (headerSet [] httpHeaderAppName version.Name)
            httpHeaderAppVersion version.Version
          sent := some (c,
            headerSet (headerSet [] httpHeaderAppName version.Name)
              httpHeaderAppVersion version.Version)
          body := [] } := by
    simp [withAppHeadersOps, runBase, baseStep, initBase]
  have hsent := sent_preserved ops
    { headers := headerSet (headerSet [] httpHeaderAppName version.Name)
        httpHeaderAppVersion version.Version
      sent := some (c,
        headerSet (headerSet [] httpHeaderAppName version.Name)
          httpHeaderAppVersion version.Version)
      body := [] }
    (c, headerSet (headerSet [] httpHeaderAppName version.Name)
      httpHeaderAppVersion version.Version) rfl
  rw [hpre]
  refine ⟨?_, ?_, ?_⟩
  · simp [wireStatus, hsent]
  · rw [wireHeader, hsent]
    simp [headerSet, headerGet, httpHeaderAppName, httpHeaderAppVersion]
  · rw [wireHeader, hsent]
    simp [headerSet, headerGet, httpHeaderAppName, httpHeaderAppVersion]

end HttpEcho
